import Mathlib

/-!
Verification of the BuildSCAD interpreter (static lowering + dynamic
evaluation of an OpenSCAD-like language) against its specification.

The development shallowly embeds the parts of the interpreter the claims
touch:

* `VarEval`   — lazy variable binding with the `_working` (InProgress)
                marker of `DynEnv.var` (env.py) and `Variable.eval_with`
                (blocks.py), over a small expression fragment.
* `Dollar`    — resolution of `$`-prefixed names through the dynamic
                (`caller`) chain with static fallback (`DynEnv.var`).
* `ChildEval` — the per-invocation child cache (`DynEnv.one_child`,
                `DynEnv.children`, `DynEnv.child_union`) and the CSG
                builtins `union` / `difference` / `intersection`
                (globals.py).
* `ForLoop`   — the value sequence iterated by the builtin `for_`
                (globals.py), including Python `range` semantics.
* `Collect`   — argument binding `_Call._collect` (blocks.py).
* `Mult`      — the `*` `/` `%` chain evaluator `_e_multiplication`
                (rules.py) with Python numeric semantics.
* `Lower`     — static lowering of modifier prefixes `* # % !`
                (`_e_mod_inst_star` etc., `_e_stmt_obj`,
                `_e_child_statement` in rules.py).
* `Cyl`       — radius resolution of the builtin `cylinder`
                (globals.py).

Python-level failures (TypeError, ZeroDivisionError, AttributeError,
StopIteration, ValueError) are modelled with `Except`; shapes produced by
the geometry kernel are modelled as an opaque CSG term algebra.
-/

namespace BuildScad

/-- Decidable equality for `Except`, so that concrete runs of the
embedded code can be checked by `decide`. -/
instance instDecEqExcept {ε α : Type} [DecidableEq ε] [DecidableEq α] :
    DecidableEq (Except ε α) := fun x y =>
  match x, y with
  | .error a, .error b =>
    if h : a = b then isTrue (congrArg Except.error h)
    else isFalse (fun hc => h (Except.error.inj hc))
  | .ok a, .ok b =>
    if h : a = b then isTrue (congrArg Except.ok h)
    else isFalse (fun hc => h (Except.ok.inj hc))
  | .error _, .ok _ => isFalse (fun hc => Except.noConfusion hc)
  | .ok _, .error _ => isFalse (fun hc => Except.noConfusion hc)

/-- Python's test `name[0] == "$"` (also `name.startswith("$")`): does
the name begin with a dollar sign? -/
def isDollar (name : String) : Bool := name.data.head? == some '$'

/-- Python exceptions that the embedded code can raise. -/
inductive PyErr where
  | typeError
  | attributeError
  | stopIteration
  | zeroDivisionError
  | valueError
deriving DecidableEq, Repr

namespace VarEval

/-!
Model of lazy variable evaluation: `DynEnv.var` (env.py lines 305-340)
looks a name up in the per-environment value dict `self.vars`; a hit on
the `_working` marker raises `RuntimeError("Recursive variable ...")`; a
miss resolves the `Variable` node through the static scope and evaluates
its body via `Variable.eval_with` (blocks.py lines 101-109), which builds
a FRESH `DynEnv` (`DynEnv(self.env, env)`, whose `vars` dict is empty
because `with_vars` defaults to False), then stores the result.

The static scope is the insertion-ordered association list built by
`_Env.add_var` (first binding wins, duplicates only warn), looked up by
name exactly like the Python dict.  Non-termination of the Python
recursion is made visible with a fuel parameter: exhausted fuel is the
`outOfFuel` outcome.
-/

/-- Expression fragment for variable bodies: numeric literals, variable
references (`pr_Sym`), and `+` (`_e_addition`), enough to express
assignments such as `a = b + 1;`. -/
inductive Expr where
  | num (n : Int)
  | evar (s : String)
  | add (a b : Expr)
deriving DecidableEq, Repr

/-- One slot of `DynEnv.vars`: either the `_working` marker or an
evaluated value. -/
inductive CEntry where
  | working
  | value (v : Int)
deriving DecidableEq, Repr

/-- The per-environment value dict `DynEnv.vars`.  Python dict assignment
is modelled by shadowing cons: `List.lookup` returns the newest entry. -/
abbrev Cache := List (String × CEntry)

/-- Failure modes of dynamic evaluation. -/
inductive VErr where
  | recursiveVariable (name : String)
  | keyError
  | outOfFuel
deriving DecidableEq, Repr

/-- Dynamic evaluation of an expression against a static scope `vars`
(name to body, insertion order exposed) and a value cache, following
`DynEnv.var` / `Variable.eval_with`.  A cache miss on `evar s` records
the `_working` marker, evaluates the variable's body in a fresh
environment (empty cache, exactly as `DynEnv(self.env, env)` does), and
stores the result.  One unit of fuel is spent on every recursive step,
so exhausted fuel (`outOfFuel`) is how the model renders a Python
evaluation that is still recursing. -/
def evalE (vars : List (String × Expr)) : Nat → Expr → Cache →
    Except VErr (Int × Cache)
  | 0, _, _ => .error .outOfFuel
  | fuel + 1, e, c =>
    match e with
    | .num n => .ok (n, c)
    | .add a b =>
      match evalE vars fuel a c with
      | .error er => .error er
      | .ok (x, c1) =>
        match evalE vars fuel b c1 with
        | .error er => .error er
        | .ok (y, c2) => .ok (x + y, c2)
    | .evar s =>
      match List.lookup s c with
      | some .working => .error (.recursiveVariable s)
      | some (.value v) => .ok (v, c)
      | none =>
        match List.lookup s vars with
        | none => .error .keyError
        | some body =>
          match evalE vars fuel body [] with
          | .error er => .error er
          | .ok (v, _) => .ok (v, (s, .value v) :: (s, .working) :: c)

/-- The scope of the spec's order-independence example
`a = b + 1; b = 1;` in source order. -/
def exScope1 : List (String × Expr) :=
  [("a", .add (.evar "b") (.num 1)), ("b", .num 1)]

/-- The same bindings inserted in the opposite order
(`b = 1; a = b + 1;`). -/
def exScope2 : List (String × Expr) :=
  [("b", .num 1), ("a", .add (.evar "b") (.num 1))]

/-- A scope with a directly self-recursive variable `a = a + 1;`. -/
def recScope : List (String × Expr) :=
  [("a", .add (.evar "a") (.num 1))]

end VarEval

namespace Dollar

/-!
Model of `$`-name resolution in `DynEnv.var` (env.py lines 305-340).
The dynamic environment chain `self -> self.dyn -> ... -> _null` is a
list of frames; each frame carries its value dict `vars` (holding
already-evaluated values, as left behind by `set_var` and argument
binding), its static lookup chain flattened to an association list, and
the length of its child block (for the special name `$children`).
`NullEnv.var` raises `KeyError`; `DynEnv.var` consults `self.vars`, then
for `$`-prefixed names the `caller` chain, falling back to
`self.static.var(name)` exactly when the recursive call raised
`KeyError`.  Variable-node evaluation and memoization are modelled in
`VarEval`; here the chain holds plain values, so a resolved entry is
returned as-is (the `callable`/`eval_with` dispatch collapses to the
plain-value branch).
-/

/-- Values stored in dynamic frames (enough for the `$`-defaults). -/
inductive DVal where
  | num (n : Int)
  | boolean (b : Bool)
  | str (s : String)
deriving DecidableEq, Repr

/-- One dynamic environment frame. -/
structure Frame where
  vars : List (String × DVal)
  statc : List (String × DVal)
  childLen : Option Nat
deriving DecidableEq, Repr

/-- Resolution error: Python `KeyError`. -/
inductive DErr where
  | keyError
deriving DecidableEq, Repr

/-- Lookup in a frame's static chain (`StaticEnv.var` walking `parent`,
flattened; `NullEnv.var` at the end raises `KeyError`). -/
def staticVar (s : List (String × DVal)) (name : String) : Except DErr DVal :=
  match List.lookup name s with
  | some v => .ok v
  | none => .error .keyError

/-- The `DynEnv.var` lookup over the dynamic chain (`[]` is `_null`).
For `$children` the current frame's child-block length is returned; a
value in `self.vars` wins; otherwise `$`-prefixed names try the caller
chain first and fall back to the frame's static chain on `KeyError`,
while plain names go to the static chain directly. -/
def var : List Frame → String → Except DErr DVal
  | [], _ => .error .keyError
  | f :: rest, name =>
    if name = "$children" then
      .ok (.num (Int.ofNat (match f.childLen with | none => 0 | some k => k)))
    else
      match List.lookup name f.vars with
      | some v => .ok v
      | none =>
        if isDollar name then
          match var rest name with
          | .ok v => .ok v
          | .error .keyError => staticVar f.statc name
        else staticVar f.statc name

/-- First binding of `name` in the `vars` of a chain of frames
(specification-side description of "the caller's dynamic binding"). -/
def chainLookup : List Frame → String → Option DVal
  | [], _ => none
  | f :: rest, name =>
    match List.lookup name f.vars with
    | some v => some v
    | none => chainLookup rest name

/-- Static fallback actually performed when the whole dynamic chain has
no binding: the deepest frame's static chain is consulted first (it is
the one that catches `KeyError` from `_null`), then outward. -/
def staticFB : List Frame → String → Except DErr DVal
  | [], _ => .error .keyError
  | f :: rest, name =>
    match staticFB rest name with
    | .ok v => .ok v
    | .error .keyError => staticVar f.statc name

/-- Static chain of the deepest (root) frame of a nonempty chain. -/
def lastStatic : List Frame → List (String × DVal)
  | [] => []
  | [f] => f.statc
  | _ :: rest => lastStatic rest

/-- Example frame of a user module body: no local `$` values. -/
def userFrame : Frame :=
  ⟨[("x", .num 3)], [], none⟩

/-- Example caller frame binding `$fn` dynamically. -/
def callerFrame : Frame :=
  ⟨[("$fn", .num 12)], [], some 1⟩

/-- Example root frame whose static chain holds the `$` defaults. -/
def rootFrame : Frame :=
  ⟨[], [("$fn", .num 999), ("$t", .num 0)], none⟩

end Dollar

namespace ChildEval

/-!
Model of the child-block machinery of `DynEnv` (env.py lines 246-303):
the lazily created per-invocation cache `_child_res` (sparse slots
initialised to `_unknown` by the `_child_env` property), the accessor
`one_child` (reached from the builtin `children(idx)` in globals.py),
the generator `children`, `child_union`, and the CSG builtins
`difference` / `union` / `intersection` (globals.py lines 362-382).

Shapes are an opaque CSG term algebra (`+`, `-`, `&` and `.clean()` of
the kernel become constructors).  Work-item evaluation is deterministic,
so a child block carries the evaluation results of its items: `stmt r`
is a bare `Statement` child evaluating to `r`, `scope l` a brace-block
child (`StaticEnv`) whose i-th work item evaluates to `l[i]`.
-/

/-- Opaque kernel shapes as CSG terms. -/
inductive Shape where
  | prim (n : Nat)
  | uni (a b : Shape)
  | dif (a b : Shape)
  | inter (a b : Shape)
  | clean (a : Shape)
deriving DecidableEq, Repr

/-- A captured child block with its (deterministic) evaluation results. -/
inductive Child where
  | stmt (r : Option Shape)
  | scope (work : List (Option Shape))
deriving DecidableEq, Repr

/-- The memo state `_child_res`: `unknown` is the class-level `_unknown`
sentinel, `single` the stored result for a `Statement` child, `multi`
the slot list created by `_child_env` (a slot of `none` is `_unknown`). -/
inductive CRes where
  | unknown
  | single (r : Option Shape)
  | multi (l : List (Option (Option Shape)))
deriving DecidableEq, Repr

/-- Core of `one_child` for a scope child once `_child_env` is forced
and the cache list `l` exists: `None` beyond the cache length, the
cached slot if filled, otherwise evaluate the i-th work item (counted)
and fill the slot.  Returns result, updated cache list, and how many
work items this call evaluated.  The cache length always equals the work
length in real runs, so the `getD` default on `work` is never taken. -/
def scopeStep (work : List (Option Shape)) (l : List (Option (Option Shape)))
    (i : Nat) : Option Shape × List (Option (Option Shape)) × Nat :=
  if l.length ≤ i then (none, l, 0)
  else
    match l.getD i none with
    | some rv => (rv, l, 0)
    | none =>
      let rv := work.getD i none
      (rv, l.set i (some rv), 1)

/-- `DynEnv.one_child(i)`: returns the i-th child's shape, the updated
memo state, and how many work items were evaluated by this call (0 or
1).  Mirrors env.py lines 246-267: `child is None` yields `None`; a
`Statement` child answers only index 0, memoized; a scope child first
forces `_child_env` — which sizes `_child_res` to the work list when it
does not exist yet (any state other than `multi`) — and then runs
`scopeStep`. -/
def one_child (child : Option Child) (st : CRes) (i : Nat) :
    Option Shape × CRes × Nat :=
  match child with
  | none => (none, st, 0)
  | some (.stmt r) =>
    if i ≠ 0 then (none, st, 0)
    else
      match st with
      | .unknown => (r, .single r, 1)
      | .single rv => (rv, .single rv, 0)
      | .multi l => (none, .multi l, 0)
  | some (.scope work) =>
    let l := match st with
      | .multi l => l
      | _ => List.replicate work.length none
    let q := scopeStep work l i
    (q.1, .multi q.2.1, q.2.2)

/-- Coherence of a memo state with a child block: the slot list created
by `_child_env` has exactly one slot per work item, and `single` /
`multi` states only occur for the matching child kind. -/
def stateWF (child : Option Child) (st : CRes) : Bool :=
  match child, st with
  | some (.scope work), .multi l => l.length = work.length
  | some (.scope _), .single _ => false
  | some (.stmt _), .multi _ => false
  | _, _ => true

/-- The sequence yielded by the `DynEnv.children` generator (env.py
lines 282-303): `None` once when there is no child block, the single
statement's result, or each work item of a scope child in order.
Memoization returns the identical (deterministic) values, so the cache
does not change the yielded list and is modelled only in `one_child`. -/
def children : Option Child → List (Option Shape)
  | none => [none]
  | some (.stmt r) => [r]
  | some (.scope work) => work

/-- One step of `child_union` (env.py lines 269-280): skip `None`
children, start with the first shape, then combine with `+`. -/
def addStep (res r : Option Shape) : Option Shape :=
  match r with
  | none => res
  | some s =>
    match res with
    | none => some s
    | some acc => some (.uni acc s)

/-- `DynEnv.child_union`. -/
def child_union (c : Option Child) : Option Shape :=
  (children c).foldl addStep none

/-- The builtin `union()` (globals.py lines 370-371): just
`child_union`. -/
def union (c : Option Child) : Option Shape := child_union c

/-- Python `res -= c` on shapes: defined only when both operands are
shapes; `None - shape` and `shape - None` raise `TypeError`. -/
def pySub : Option Shape → Option Shape → Except PyErr (Option Shape)
  | some a, some b => .ok (some (.dif a b))
  | _, _ => .error .typeError

/-- The builtin `difference()` (globals.py lines 362-368):
`res = next(ch)` — `StopIteration` on an empty generator — then
`res -= c` for every further child, with NO skipping of `None`. -/
def difference (c : Option Child) : Except PyErr (Option Shape) :=
  match children c with
  | [] => .error .stopIteration
  | c0 :: rest => rest.foldlM pySub c0

/-- One step of `intersection` (globals.py lines 373-382): skip `None`
children, start with the first shape, then combine with `&`. -/
def interStep (res r : Option Shape) : Option Shape :=
  match r with
  | none => res
  | some s =>
    match res with
    | none => some s
    | some acc => some (.inter acc s)

/-- The builtin `intersection()`: fold over the children skipping
`None`, then `res.clean()` — which is an `AttributeError` when `res` is
still `None` (no child contributed a shape). -/
def intersection (c : Option Child) : Except PyErr Shape :=
  match (children c).foldl interStep none with
  | none => .error .attributeError
  | some r => .ok (.clean r)

/-- Example child block with two work items, the second building
nothing. -/
def exChild : Option Child := some (.scope [some (.prim 1), none])

end ChildEval

namespace ForLoop

/-!
Model of the value sequence iterated by the builtin `for_` (globals.py
lines 245-284).  Per loop variable the code computes
`stp = stepper.step if isinstance(stepper.step, (int, float)) else self.eval(node=stepper.step)`
BEFORE testing whether the stepper is a list, so a `Vector` stepper
raises `AttributeError` (`list` has no attribute `step`).  A `ForStep`
stepper iterates Python `range(eval(start), eval(end) + stp, stp)`; the
start/end/step values here are the already-evaluated integers (Python
`range` only accepts integers; `range` with step 0 raises `ValueError`).
-/

/-- Python `range(start, stop, step)` as a list, one comparison per
element: while `v < stop` (ascending) resp. `stop < v` (descending).
The fuel `|stop - start|` bounds the element count because each step
moves `v` by at least 1. -/
def pyRangeAux (stop step : Int) : Nat → Int → List Int
  | 0, _ => []
  | n + 1, v =>
    if (if 0 < step then v < stop else stop < v) then
      v :: pyRangeAux stop step n (v + step)
    else []

/-- Python `range(start, stop, step)` for `step ≠ 0`. -/
def pyRange (start stop step : Int) : List Int :=
  pyRangeAux stop step
    (if 0 < step then (stop - start).toNat else (start - stop).toNat) start

/-- The iterable bound to one loop variable: a `ForStep(start, end,
step)` range (fields already evaluated) or a `Vector`. -/
inductive Stepper where
  | rng (a b s : Int)
  | vec (l : List Int)
deriving DecidableEq, Repr

/-- The sequence of values the loop variable takes, following `_for` in
`_Mods.for_`: the `stp` computation raises `AttributeError` for a
`Vector` stepper; a range stepper iterates
`range(start, end + stp, stp)`. -/
def for_values : Stepper → Except PyErr (List Int)
  | .vec _ => .error .attributeError
  | .rng a b s =>
    if s = 0 then .error .valueError
    else .ok (pyRange a (b + s) s)

end ForLoop

namespace Collect

/-!
Model of argument binding, `_Call._collect` (blocks.py lines 17-47).
`self.params` is the pair `(positional names, default map)` produced by
`_e_parameter_list`; the call provides evaluated positional arguments
`a` and keyword arguments `kw`; `env.var` for `$`-names is the oracle
`dollar` (the dynamic chain of `Dollar.var`).  Binding warns instead of
failing: surplus positional arguments warn and are dropped (the loop
breaks), and a parameter still unbound after defaults, keywords,
positionals and the `$`-chain is bound to Python `None` (`Undef`) with a
warning.  Default values are modelled as already-evaluated values of an
abstract type `V`.
-/

/-- The binding dict `p`: a parameter maps to `some v` or to Python
`None` (`Undef`).  Dict assignment is shadowing cons; `List.lookup`
returns the newest entry. -/
abbrev PMap (V : Type) := List (String × Option V)

/-- Dict membership / read: `p[k]` if present. -/
def pmGet {V : Type} (p : PMap V) (k : String) : Option (Option V) :=
  List.lookup k p

/-- Dict assignment `p[k] = v`. -/
def pmSet {V : Type} (p : PMap V) (k : String) (v : Option V) : PMap V :=
  (k, v) :: p

/-- `p = dict(**self.params[1]); p.update(kw)`: keywords override
defaults. -/
def initMap {V : Type} (defaults : List (String × V)) (kw : List (String × V)) :
    PMap V :=
  (kw.map fun x => (x.1, some x.2)) ++ (defaults.map fun x => (x.1, some x.2))

/-- `vl = list(self.params[0]) + list(self.params[1].keys())`. -/
def vlOf {V : Type} (positional : List String) (defaults : List (String × V)) :
    List String :=
  positional ++ defaults.map Prod.fst

/-- The positional loop: `for v in a: p[vl[off]] = v` with
`warnings.warn("Too many params"); break` on `IndexError`.  Returns the
updated dict and whether the surplus warning fired. -/
def posLoop {V : Type} (vl : List String) : List V → Nat → PMap V → PMap V × Bool
  | [], _, p => (p, false)
  | v :: rest, off, p =>
    match vl[off]? with
    | some name => posLoop vl rest (off + 1) (pmSet p name (some v))
    | none => (p, true)

/-- The fill loop: every `v in vl` not yet in `p` is taken from the
`$`-chain when `$`-prefixed and resolvable, and otherwise bound to
`None` with a `"no value"` warning.  Returns the dict and the warned
names. -/
def fillLoop {V : Type} (dollar : String → Option V) :
    List String → PMap V → PMap V × List String
  | [], p => (p, [])
  | v :: rest, p =>
    match pmGet p v with
    | some _ => fillLoop dollar rest p
    | none =>
      if isDollar v then
        match dollar v with
        | some d => fillLoop dollar rest (pmSet p v (some d))
        | none =>
          let q := fillLoop dollar rest (pmSet p v none)
          (q.1, v :: q.2)
      else
        let q := fillLoop dollar rest (pmSet p v none)
        (q.1, v :: q.2)

/-- `_Call._collect`: resulting bindings (installed into the callee's
`vars`), the surplus-positional warning flag, and the `"no value"`
warnings. -/
def collect {V : Type} (positional : List String) (defaults : List (String × V))
    (a : List V) (kw : List (String × V)) (dollar : String → Option V) :
    PMap V × Bool × List String :=
  let vl := vlOf positional defaults
  let pr := posLoop vl a 0 (initMap defaults kw)
  let fr := fillLoop dollar vl pr.1
  (fr.1, pr.2, fr.2)

/-- An empty `$`-chain (no dynamic `$` binding resolvable). -/
def noDollar : String → Option Int := fun _ => none

end Collect

namespace Mult

/-!
Model of `_DynRules._e_multiplication` (rules.py lines 393-410): a
left fold of `*=`, `/=`, `%=` over the already-evaluated operand values.
Python numeric semantics: `int * int` stays `int`, `/` always yields a
float, `%` keeps `int` on two ints; division or modulo by zero raises
`ZeroDivisionError` for both `int` and `float` operands (CPython does
NOT produce IEEE-754 Inf/NaN here).  Numeric values are exact (`Int` and
`Rat`); float rounding is irrelevant to the claims.
-/

/-- A Python number: `int` or `float` (exact value). -/
inductive NVal where
  | int (n : Int)
  | float (q : Rat)
deriving DecidableEq, Repr

/-- Numeric value of an `NVal`. -/
def toQ : NVal → Rat
  | .int n => (n : Rat)
  | .float q => q

/-- Python `*` on numbers. -/
def pyMul (a b : NVal) : NVal :=
  match a, b with
  | .int x, .int y => .int (x * y)
  | _, _ => .float (toQ a * toQ b)

/-- Python `/` on numbers: `ZeroDivisionError` on a zero divisor, else a
float. -/
def pyDiv (a b : NVal) : Except PyErr NVal :=
  if toQ b = 0 then .error .zeroDivisionError
  else .ok (.float (toQ a / toQ b))

/-- Python `%` on numbers: `ZeroDivisionError` on a zero divisor;
otherwise `a - b * floor(a / b)` (`Int.fmod` on two ints). -/
def pyMod (a b : NVal) : Except PyErr NVal :=
  if toQ b = 0 then .error .zeroDivisionError
  else
    match a, b with
    | .int x, .int y => .ok (.int (Int.fmod x y))
    | _, _ => .ok (.float (toQ a - toQ b * ((toQ a / toQ b).floor : Rat)))

/-- Operators of a `multiplication` node. -/
inductive MulOp where
  | mulOp
  | divOp
  | modOp
deriving DecidableEq, Repr

/-- `_e_multiplication`: start from the first operand's value and fold
the `(operator, operand)` tail left-to-right. -/
def e_multiplication (first : NVal) (rest : List (MulOp × NVal)) :
    Except PyErr NVal :=
  rest.foldlM
    (fun res p =>
      match p.1 with
      | .mulOp => .ok (pyMul res p.2)
      | .divOp => pyDiv res p.2
      | .modOp => pyMod res p.2)
    first

end Mult

namespace Lower

/-!
Model of static lowering of modifier prefixes (rules.py).  A
`module_instantiation` with prefix `!` / `#` / `%` warns and lowers the
inner instantiation unchanged (`_e_mod_inst_bang` / `_hash` / `_perc`,
lines 170-183); the `*` prefix returns `None` WITHOUT lowering the inner
node (`_e_mod_inst_star`, lines 185-187).  A statement at top level or
inside a brace block goes through `_e_stmt_obj` (lines 65-73), which
treats a `None` lowering as an internal error: it hits a leftover
`breakpoint()` and raises `RuntimeError("Empty statement")`.  Only the
`child_statement` path (`_e_child_statement`, lines 118-123, reached
inside `... { ... }` child blocks) silently drops a `None` lowering.
The lowered statement is abbreviated to the instantiated module's name.
-/

/-- Warnings emitted while lowering modifier prefixes. -/
inductive Warn where
  | isolation
  | highlighting
  | transparency
deriving DecidableEq, Repr

/-- A (possibly prefixed) module instantiation node. -/
inductive MInst where
  | call (name : String)
  | bang (m : MInst)
  | hash (m : MInst)
  | perc (m : MInst)
  | star (m : MInst)
deriving DecidableEq, Repr

/-- Lowering a `module_instantiation`: the resulting work item (if any)
and the warnings, in emission order (each prefix warns before lowering
its inner node; `*` lowers nothing). -/
def eval_mod_inst : MInst → Option String × List Warn
  | .call name => (some name, [])
  | .bang m => ((eval_mod_inst m).1, .isolation :: (eval_mod_inst m).2)
  | .hash m => ((eval_mod_inst m).1, .highlighting :: (eval_mod_inst m).2)
  | .perc m => ((eval_mod_inst m).1, .transparency :: (eval_mod_inst m).2)
  | .star _ => (none, [])

/-- Failure of `_e_stmt_obj`: `RuntimeError("Empty statement")`. -/
inductive LowerErr where
  | emptyStatement
deriving DecidableEq, Repr

/-- `_e_stmt_obj`: lower the statement and append it to the work list; a
`None` lowering raises `RuntimeError("Empty statement")` (after a
leftover `breakpoint()`). -/
def e_stmt_obj (m : MInst) : Except LowerErr (String × List Warn) :=
  match eval_mod_inst m with
  | (none, _) => .error .emptyStatement
  | (some s, w) => .ok (s, w)

/-- `_e_child_statement`: lower the statement and append it to the work
list only when the lowering is not `None` — a starred child statement is
dropped silently. -/
def e_child_statement (m : MInst) (work : List String) :
    List String × List Warn :=
  match eval_mod_inst m with
  | (none, w) => (work, w)
  | (some s, w) => (work ++ [s], w)

end Lower

namespace Cyl

/-!
Model of the radius resolution of the builtin `cylinder` (globals.py
lines 289-326).  After the (result-irrelevant) ambiguity warning, the
code runs
`if r: r1 = r2 = r; if d: r1 = r2 = d/2; if d1: r1 = d1/2; if d2: r2 = d1/2`
— the last line divides `d1`, not `d2`, so supplying `d2` without `d1`
raises `TypeError` (`None / 2`).  Unset radii then default:
`r1 = 1` when still `None`, `r2 = r1` when still `None`.  The geometry
(`extrude` of a circle when `r1 == r2`, `loft` otherwise, `Pos` shift
when centered) is kept as an opaque term.
-/

/-- The resolved pair `(r1, r2)` of bottom and top radius.  `TypeError`
models Python `None / 2` in the `d2` branch. -/
def cyl_radii (r1 r2 r d d1 d2 : Option Rat) : Except PyErr (Rat × Rat) :=
  let p1 : Option Rat := match r with | some rv => some rv | none => r1
  let p2 : Option Rat := match r with | some rv => some rv | none => r2
  let p1 : Option Rat := match d with | some dv => some (dv / 2) | none => p1
  let p2 : Option Rat := match d with | some dv => some (dv / 2) | none => p2
  let p1 : Option Rat := match d1 with | some v => some (v / 2) | none => p1
  match d2 with
  | none =>
    let a := p1.getD 1
    .ok (a, p2.getD a)
  | some _ =>
    match d1 with
    | none => .error .typeError
    | some u =>
      let a := p1.getD 1
      .ok (a, (some (u / 2)).getD a)

/-- The shape the builtin returns, as an opaque term. -/
inductive CylShape where
  | extruded (r1 h : Rat)
  | lofted (r1 r2 h : Rat)
  | centered (z : Rat) (s : CylShape)
deriving DecidableEq, Repr

/-- `_Mods.cylinder`: resolve the radii, extrude when `r1 == r2`, loft
otherwise, shift by `-h/2` when centered. -/
def cylinder (h : Rat) (r1 r2 r d d1 d2 : Option Rat) (center : Bool) :
    Except PyErr CylShape :=
  match cyl_radii r1 r2 r d d1 d2 with
  | .error e => .error e
  | .ok (a, b) =>
    let res := if a = b then CylShape.extruded a h else CylShape.lofted a b h
    .ok (if center then .centered (-(h / 2)) res else res)

end Cyl

/-! ## Theorems -/

namespace VarEval

/-- Lookup in an association list is invariant under permutation when
the keys are distinct. -/
theorem lookup_eq_of_perm {α β : Type} [BEq α] [LawfulBEq α]
    {l1 l2 : List (α × β)} (h : l1.Perm l2)
    (nd : (l1.map Prod.fst).Nodup) (a : α) :
    List.lookup a l1 = List.lookup a l2 := by
  induction h with
  | nil => rfl
  | cons x h ih =>
    simp only [List.map_cons, List.nodup_cons] at nd
    simp only [List.lookup]
    cases hax : a == x.1 with
    | true => rfl
    | false => exact ih nd.2
  | swap x y l =>
    simp only [List.map_cons, List.nodup_cons, List.mem_cons] at nd
    have hxy : y.1 ≠ x.1 := fun he => nd.1 (Or.inl he)
    simp only [List.lookup]
    cases hay : a == y.1 with
    | true =>
      have hey : a = y.1 := eq_of_beq hay
      have hax : (a == x.1) = false := by
        apply beq_eq_false_iff_ne.2
        intro he
        exact hxy (by rw [← hey, he])
      simp [hax, hay]
    | false => cases a == x.1 <;> simp [hay]
  | trans h1 h2 ih1 ih2 =>
    exact (ih1 nd).trans (ih2 ((h1.map Prod.fst).nodup_iff.mp nd))

/-- Evaluation depends on the static scope only through name lookup. -/
theorem evalE_congr (v1 v2 : List (String × Expr))
    (hl : ∀ s, List.lookup s v1 = List.lookup s v2) :
    ∀ fuel e c, evalE v1 fuel e c = evalE v2 fuel e c := by
  intro fuel
  induction fuel with
  | zero => intro e c; rfl
  | succ f ih =>
    intro e c
    cases e with
    | num n => rfl
    | add a b => simp only [evalE, ih]
    | evar s => simp only [evalE, hl, ih]

/-- C1: evaluation results are independent of the order of assignments
inside a static scope — permuting the insertion order of the (uniquely
named) variable bindings leaves the result of every expression, at every
fuel and cache, unchanged, because each variable is bound lazily from
its recorded expression node. -/
theorem c1_assignment_order_independent
    (v1 v2 : List (String × Expr)) (hperm : v1.Perm v2)
    (hnd : (v1.map Prod.fst).Nodup) (fuel : Nat) (e : Expr) (c : Cache) :
    evalE v1 fuel e c = evalE v2 fuel e c :=
  evalE_congr v1 v2 (fun s => lookup_eq_of_perm hperm hnd s) fuel e c

/-- Witness for C1 on the spec's example `a = b + 1; b = 1;` versus
`b = 1; a = b + 1;` — both orders evaluate `a` to `2`. -/
theorem c1_witness :
    evalE exScope1 4 (.evar "a") [] = evalE exScope2 4 (.evar "a") []
    ∧ evalE exScope1 4 (.evar "a") [] =
        .ok (2, [("a", .value 2), ("a", .working)]) :=
  ⟨c1_assignment_order_independent exScope1 exScope2 (List.Perm.swap _ _ _)
      (by decide) 4 (.evar "a") [],
    by decide⟩

/-- C6 counterexample: evaluating the directly self-recursive variable
`a = a + 1;` never reaches the `RecursiveVariable` error — even with
generous fuel the evaluation is still recursing (the marker sits in the
parent environment, but the body is evaluated in a fresh one). -/
theorem c6_counterexample :
    evalE recScope 30 (.evar "a") [] = .error .outOfFuel
    ∧ evalE recScope 30 (.evar "a") [] ≠ .error (.recursiveVariable "a") := by
  constructor
  · decide
  · decide

/-- C6 (amended): a lookup that hits the `_working` (InProgress) marker
in the current environment's value slot fails with `RecursiveVariable`
naming the variable; but a plain variable whose body re-enters itself is
re-evaluated in a fresh child environment that does not hold the marker,
so its evaluation recurses without bound (Python: `RecursionError`)
instead of raising `RecursiveVariable` — at every fuel the
self-recursive `a = a + 1;` is still recursing. -/
theorem c6_in_progress_detection :
    (∀ (vars : List (String × Expr)) (fuel : Nat) (c : Cache) (s : String),
        List.lookup s c = some .working →
        evalE vars (fuel + 1) (.evar s) c = .error (.recursiveVariable s))
    ∧ (∀ fuel, evalE recScope fuel (.evar "a") [] = .error .outOfFuel) := by
  constructor
  · intro vars fuel c s h
    simp [evalE, h]
  · intro fuel
    induction fuel using Nat.strong_induction_on with
    | _ fuel ih =>
      match fuel with
      | 0 => rfl
      | 1 => decide
      | f + 2 =>
        have hf : evalE recScope f (.evar "a") [] = .error .outOfFuel :=
          ih f (by omega)
        have hlk : List.lookup "a" recScope =
            some (Expr.add (.evar "a") (.num 1)) := by decide
        have hc : List.lookup "a" ([] : Cache) = none := rfl
        simp only [evalE, hc, hlk, hf]

/-- Witness for C6: the marker branch fires on a concrete cache holding
`_working` for `"a"`. -/
theorem c6_witness :
    evalE recScope 3 (.evar "a") [("a", .working)] =
      .error (.recursiveVariable "a") :=
  c6_in_progress_detection.1 recScope 2 [("a", .working)] "a" (by decide)

end VarEval

namespace Dollar

/-- When some frame of the chain holds a binding, `var` returns the one
of the first such frame. -/
theorem var_of_chain (l : List Frame) (name : String) (v : DVal)
    (hd : isDollar name = true) (hch : name ≠ "$children")
    (hc : chainLookup l name = some v) :
    var l name = .ok v := by
  induction l with
  | nil => simp [chainLookup] at hc
  | cons f rest ih =>
    simp only [chainLookup] at hc
    simp only [var, if_neg hch]
    cases hl : List.lookup name f.vars with
    | some w =>
      rw [hl] at hc
      simp only at hc
      simp [Option.some.inj hc]
    | none =>
      rw [hl] at hc
      simp only at hc
      simp [hd, ih hc]

/-- When no frame of the chain holds a binding, `var` performs the
deepest-first static fallback. -/
theorem var_of_nochain (l : List Frame) (name : String)
    (hd : isDollar name = true) (hch : name ≠ "$children")
    (hc : chainLookup l name = none) :
    var l name = staticFB l name := by
  induction l with
  | nil => rfl
  | cons f rest ih =>
    simp only [chainLookup] at hc
    cases hl : List.lookup name f.vars with
    | some w => rw [hl] at hc; simp at hc
    | none =>
      rw [hl] at hc
      simp only at hc
      simp only [var, if_neg hch, hl, hd, if_pos, ih hc, staticFB]

/-- The static fallback resolves through the deepest (root) frame's
static chain whenever that chain has the name. -/
theorem staticFB_last (l : List Frame) (name : String) (d : DVal)
    (hne : l ≠ []) (hd : List.lookup name (lastStatic l) = some d) :
    staticFB l name = .ok d := by
  induction l with
  | nil => exact absurd rfl hne
  | cons f rest ih =>
    cases rest with
    | nil =>
      simp only [lastStatic] at hd
      simp [staticFB, staticVar, hd]
    | cons g r =>
      simp only [lastStatic] at hd
      have h2 := ih (by simp) hd
      have hu : staticFB (f :: g :: r) name =
          (match staticFB (g :: r) name with
           | Except.ok v => Except.ok v
           | Except.error DErr.keyError => staticVar f.statc name) := rfl
      rw [hu, h2]

/-- C2: resolving a `$`-prefixed name (other than the special
`$children`) in a dynamic scope that has no local value for it consults
the caller chain first and the static chain only on failure: the result
is the first caller's dynamic binding when one exists, and otherwise the
default recorded in the root frame's static chain. -/
theorem c2_dollar_resolution (f : Frame) (rest : List Frame) (name : String)
    (hd : isDollar name = true) (hch : name ≠ "$children")
    (hloc : List.lookup name f.vars = none) :
    (∀ v, chainLookup rest name = some v → var (f :: rest) name = .ok v)
    ∧ (∀ d, chainLookup rest name = none →
        List.lookup name (lastStatic (f :: rest)) = some d →
        var (f :: rest) name = .ok d) := by
  constructor
  · intro v hv
    exact var_of_chain (f :: rest) name v hd hch
      (by simp only [chainLookup, hloc]; exact hv)
  · intro d hnone hlast
    rw [var_of_nochain (f :: rest) name hd hch
      (by simp only [chainLookup, hloc]; exact hnone)]
    exact staticFB_last (f :: rest) name d (by simp) hlast

/-- Witness for C2: `$fn` resolves to the caller's dynamic binding `12`,
and `$t` (bound nowhere in the dynamic chain) falls back to the root
static default `0`. -/
theorem c2_witness :
    var [userFrame, callerFrame, rootFrame] "$fn" = .ok (.num 12)
    ∧ var [userFrame, callerFrame, rootFrame] "$t" = .ok (.num 0) :=
  ⟨(c2_dollar_resolution userFrame [callerFrame, rootFrame] "$fn"
      (by decide) (by decide) (by decide)).1 (.num 12) (by decide),
    (c2_dollar_resolution userFrame [callerFrame, rootFrame] "$t"
      (by decide) (by decide) (by decide)).2 (.num 0) (by decide) (by decide)⟩

end Dollar

namespace ChildEval

/-- Reading a freshly set slot. -/
theorem getD_set_self {α : Type} (l : List α) (i : Nat) (a d : α)
    (h : i < l.length) : (l.set i a).getD i d = a := by
  rw [List.getD_eq_getElem?_getD, List.getElem?_set]
  simp [h]

/-- Behaviour of the scope-child cache step: it evaluates at most one
work item, a repeated call returns the memoized result without
evaluating, an index at or beyond the cache length yields `None` without
evaluating, and the cache length never changes. -/
theorem scopeStep_spec (work : List (Option Shape))
    (l : List (Option (Option Shape))) (i : Nat) :
    (scopeStep work l i).2.2 ≤ 1
    ∧ (scopeStep work (scopeStep work l i).2.1 i).1 = (scopeStep work l i).1
    ∧ (scopeStep work (scopeStep work l i).2.1 i).2.2 = 0
    ∧ (l.length ≤ i → scopeStep work l i = (none, l, 0))
    ∧ (scopeStep work l i).2.1.length = l.length := by
  by_cases hle : l.length ≤ i
  · simp [scopeStep, hle]
  · have hlt : i < l.length := by omega
    cases hg : l.getD i none with
    | some rv =>
      have e1 : scopeStep work l i = (rv, l, 0) := by
        simp only [scopeStep, if_neg hle, hg]
      refine ⟨by simp [e1], by simp [e1], by simp [e1],
        fun h => absurd h hle, by simp [e1]⟩
    | none =>
      have e1 : scopeStep work l i =
          (work.getD i none, l.set i (some (work.getD i none)), 1) := by
        simp only [scopeStep, if_neg hle, hg]
      have hlen : (l.set i (some (work.getD i none))).length = l.length :=
        List.length_set l i _
      have hle2 : ¬ (l.set i (some (work.getD i none))).length ≤ i := by
        rw [hlen]; exact hle
      have hget : (l.set i (some (work.getD i none))).getD i none =
          some (work.getD i none) :=
        getD_set_self l i _ none hlt
      have e2 : scopeStep work (l.set i (some (work.getD i none))) i =
          (work.getD i none, l.set i (some (work.getD i none)), 0) := by
        simp only [scopeStep, if_neg hle2, hget]
      simp only [List.getD_eq_getElem?_getD] at e1 e2
      refine ⟨by simp [e1], by simp [e1, e2], by simp [e1, e2],
        fun h => absurd h hle, by simp [e1, hlen]⟩

/-- C3: for a module invocation's captured child block, `children(i)`
evaluates the i-th child at most once per containing dynamic call — the
first call evaluates at most one work item and a repeated call returns
the memoized shape without evaluating anything — and `children(i)` with
`i` at or beyond the number of work items returns `None` (likewise
`i ≥ 1` for a bare-statement child). -/
theorem c3_children_memoized (child : Option Child) (st : CRes) (i : Nat)
    (hwf : stateWF child st = true) :
    ((one_child child st i).2.2 ≤ 1)
    ∧ ((one_child child (one_child child st i).2.1 i).1 =
        (one_child child st i).1)
    ∧ ((one_child child (one_child child st i).2.1 i).2.2 = 0)
    ∧ (∀ work, child = some (.scope work) → work.length ≤ i →
        (one_child child st i).1 = none ∧ (one_child child st i).2.2 = 0)
    ∧ (∀ r, child = some (.stmt r) → 1 ≤ i →
        (one_child child st i).1 = none) := by
  cases child with
  | none =>
    refine ⟨by simp [one_child], by simp [one_child], by simp [one_child],
      ?_, ?_⟩ <;> intro x hx <;> exact absurd hx (by simp)
  | some ch =>
    cases ch with
    | stmt r =>
      by_cases hi : i = 0
      · subst hi
        cases st with
        | unknown =>
          refine ⟨by simp [one_child], by simp [one_child],
            by simp [one_child], ?_, ?_⟩
          · intro w hw; exact absurd hw (by simp)
          · intro rv _ h1; omega
        | single rv =>
          refine ⟨by simp [one_child], by simp [one_child],
            by simp [one_child], ?_, ?_⟩
          · intro w hw; exact absurd hw (by simp)
          · intro rw _ h1; omega
        | multi l => simp [stateWF] at hwf
      · refine ⟨by simp [one_child, hi], by simp [one_child, hi],
          by simp [one_child, hi], ?_, ?_⟩
        · intro w hw; exact absurd hw (by simp)
        · intro rv _ _; simp [one_child, hi]
    | scope work =>
      have key : ∀ l0 : List (Option (Option Shape)), l0.length = work.length →
          ((one_child (some (.scope work)) (.multi l0) i).2.2 ≤ 1)
          ∧ ((one_child (some (.scope work))
                (one_child (some (.scope work)) (.multi l0) i).2.1 i).1 =
              (one_child (some (.scope work)) (.multi l0) i).1)
          ∧ ((one_child (some (.scope work))
                (one_child (some (.scope work)) (.multi l0) i).2.1 i).2.2 = 0)
          ∧ (work.length ≤ i →
              (one_child (some (.scope work)) (.multi l0) i).1 = none
              ∧ (one_child (some (.scope work)) (.multi l0) i).2.2 = 0) := by
        intro l0 hlen
        obtain ⟨h1, h2, h3, h4, _⟩ := scopeStep_spec work l0 i
        refine ⟨by simpa [one_child] using h1,
          by simpa [one_child] using h2,
          by simpa [one_child] using h3, ?_⟩
        intro hge
        have := h4 (by omega)
        simp [one_child, this]
      have start : ∀ st0 : CRes, stateWF (some (.scope work)) st0 = true →
          (match st0 with
            | .multi l => l
            | _ => List.replicate work.length none).length = work.length := by
        intro st0 hwf0
        cases st0 with
        | unknown => simp
        | single rv => simp [stateWF] at hwf0
        | multi l => simpa [stateWF] using hwf0
      cases st with
      | unknown =>
        have h := key (List.replicate work.length none) (by simp)
        have hstep : one_child (some (.scope work)) .unknown i =
            one_child (some (.scope work))
              (.multi (List.replicate work.length none)) i := by
          simp [one_child]
        refine ⟨?_, ?_, ?_, ?_, ?_⟩
        · rw [hstep]; exact h.1
        · rw [hstep]; exact h.2.1
        · rw [hstep]; exact h.2.2.1
        · intro w hw hge
          rw [hstep]
          have hww : w = work := (Child.scope.inj (Option.some.inj hw)).symm
          subst hww
          exact h.2.2.2 hge
        · intro rv hrv; exact absurd hrv (by simp)
      | single rv => simp [stateWF] at hwf
      | multi l =>
        have hlen : l.length = work.length := by simpa [stateWF] using hwf
        have h := key l hlen
        have hstep : one_child (some (.scope work)) (.multi l) i =
            one_child (some (.scope work)) (.multi l) i := rfl
        refine ⟨h.1, h.2.1, h.2.2.1, ?_, ?_⟩
        · intro w hw hge
          have hww : w = work := (Child.scope.inj (Option.some.inj hw)).symm
          subst hww
          exact h.2.2.2 hge
        · intro rv hrv; exact absurd hrv (by simp)

/-- Witness for C3: on a two-item child block, index 5 yields `None`,
and a repeated `children(0)` returns the memoized result and evaluates
nothing. -/
theorem c3_witness :
    (one_child exChild .unknown 5).1 = none
    ∧ (one_child exChild (one_child exChild .unknown 0).2.1 0).1 =
        (one_child exChild .unknown 0).1
    ∧ (one_child exChild (one_child exChild .unknown 0).2.1 0).2.2 = 0 :=
  ⟨((c3_children_memoized exChild .unknown 5 (by decide)).2.2.2.1
      [some (.prim 1), none] rfl (by decide)).1,
    (c3_children_memoized exChild .unknown 0 (by decide)).2.1,
    (c3_children_memoized exChild .unknown 0 (by decide)).2.2.1⟩

/-- C5 counterexample: `intersection()` with no children raises
(`None.clean()`, an `AttributeError`) instead of returning `None`, and
`difference()` does not skip a `None` child — subtracting `None` fails
with a `TypeError`. -/
theorem c5_counterexample :
    intersection none = .error .attributeError
    ∧ difference (some (.scope [some (.prim 0), none])) =
        .error .typeError := by
  constructor
  · decide
  · decide

/-- C5 (amended): `union()` with no children (or an empty child scope)
returns `None` and skips `None` children; `intersection()` skips `None`
children but fails with an `AttributeError` when called with no
children; `difference()` with no children returns `None`, with exactly
one child returns that child unchanged, and fails with a `TypeError` on
a `None` child after the first. -/
theorem c5_csg_none_handling :
    (union none = none)
    ∧ (union (some (.scope [])) = none)
    ∧ (∀ l1 l2, union (some (.scope (l1 ++ none :: l2))) =
        union (some (.scope (l1 ++ l2))))
    ∧ (intersection none = .error .attributeError)
    ∧ (∀ l1 l2, intersection (some (.scope (l1 ++ none :: l2))) =
        intersection (some (.scope (l1 ++ l2))))
    ∧ (difference none = .ok none)
    ∧ (∀ x, difference (some (.scope [x])) = .ok x)
    ∧ (∀ s l, difference (some (.scope (some s :: none :: l))) =
        .error .typeError) := by
  refine ⟨rfl, rfl, ?_, rfl, ?_, rfl, ?_, ?_⟩
  · intro l1 l2
    simp [union, child_union, children, List.foldl_append, addStep]
  · intro l1 l2
    simp [intersection, children, List.foldl_append, interStep]
  · intro x
    cases x <;> rfl
  · intro s l
    rw [show difference (some (.scope (some s :: none :: l))) =
        List.foldlM pySub (some s) (none :: l) from rfl]
    rw [List.foldlM_cons]
    rfl

end ChildEval

namespace ForLoop

/-- Soundness of the range values: every element of
`pyRangeAux stop s n v` (ascending case) lies in `[v, stop)` and is
reached from `v` in whole steps of `s`. -/
theorem mem_pyRangeAux {stop s : Int} (hs : 0 < s) :
    ∀ (n : Nat) (v x : Int), x ∈ pyRangeAux stop s n v →
      v ≤ x ∧ x < stop ∧ s ∣ (x - v) := by
  intro n
  induction n with
  | zero => intro v x hx; simp [pyRangeAux] at hx
  | succ n ih =>
    intro v x hx
    simp only [pyRangeAux, if_pos hs] at hx
    by_cases hvs : v < stop
    · rw [if_pos hvs] at hx
      rcases List.mem_cons.1 hx with he | hm
      · subst he
        exact ⟨le_refl x, hvs, by simp⟩
      · obtain ⟨h1, h2, h3⟩ := ih (v + s) x hm
        refine ⟨by omega, h2, ?_⟩
        have he : x - v = (x - (v + s)) + s := by ring
        rw [he]
        exact dvd_add h3 (dvd_refl s)
    · rw [if_neg hvs] at hx
      simp at hx

/-- Completeness of the range values: with enough fuel, every value of
the form `v + k·s` below `stop` appears. -/
theorem mem_pyRangeAux_of {stop s : Int} (hs : 0 < s) :
    ∀ (n : Nat) (v x : Int), v ≤ x → x < stop → s ∣ (x - v) →
      (stop - v).toNat ≤ n → x ∈ pyRangeAux stop s n v := by
  intro n
  induction n with
  | zero => intro v x h1 h2 _ h4; omega
  | succ n ih =>
    intro v x h1 h2 h3 h4
    have hvs : v < stop := by omega
    simp only [pyRangeAux, if_pos hs, if_pos hvs]
    by_cases hxv : x = v
    · exact List.mem_cons.2 (Or.inl hxv)
    · have hpos : 0 < x - v := by omega
      have hstep : s ≤ x - v := Int.le_of_dvd hpos h3
      have h1s : v + s ≤ x := by omega
      have h3s : s ∣ (x - (v + s)) := by
        have he : x - (v + s) = (x - v) - s := by ring
        rw [he]
        exact dvd_sub h3 (dvd_refl s)
      have h4s : (stop - (v + s)).toNat ≤ n := by omega
      exact List.mem_cons.2 (Or.inr (ih (v + s) x h1s h2 h3s h4s))

/-- The range list starts at its first argument when nonempty. -/
theorem pyRangeAux_shape (stop s : Int) :
    ∀ (n : Nat) (v : Int), pyRangeAux stop s n v = []
      ∨ ∃ t, pyRangeAux stop s n v = v :: t := by
  intro n v
  cases n with
  | zero => exact Or.inl rfl
  | succ n =>
    simp only [pyRangeAux]
    by_cases hc : (if 0 < s then v < stop else stop < v)
    · exact Or.inr ⟨_, by rw [if_pos hc]⟩
    · exact Or.inl (by rw [if_neg hc])

/-- Successive range values differ by exactly the step. -/
theorem chain_pyRangeAux (stop s : Int) :
    ∀ (n : Nat) (v : Int),
      List.Chain' (fun x y => y = x + s) (pyRangeAux stop s n v) := by
  intro n
  induction n with
  | zero => intro v; simp [pyRangeAux]
  | succ n ih =>
    intro v
    simp only [pyRangeAux]
    by_cases hc : (if 0 < s then v < stop else stop < v)
    · rw [if_pos hc]
      rcases pyRangeAux_shape stop s n (v + s) with he | ⟨t, he⟩
      · rw [he]; simp
      · rw [he]
        exact List.Chain'.cons rfl (he ▸ ih (v + s))
    · rw [if_neg hc]; simp

/-- C4 counterexample: `for` over `Range(0, 5, 2)` binds the loop
variable to `0, 2, 4, 6` — the value `6` exceeds the range end `5` — and
iterating a `Vector` raises `AttributeError` instead of visiting its
elements. -/
theorem c4_counterexample :
    for_values (.rng 0 5 2) = .ok [0, 2, 4, 6]
    ∧ (([0, 2, 4, 6] : List Int).all fun v => decide (v ≤ 5)) = false
    ∧ for_values (.vec [1, 2, 3]) = .error .attributeError := by
  refine ⟨by decide, by decide, rfl⟩

/-- C4 (amended): `for` over `Range(a, b, s)` with `s > 0` binds the
loop variable to exactly the values `a, a + s, a + 2s, …` that are
smaller than `b + s` — so `b` is included when `s` evenly divides
`b − a`, but the last value may exceed `b` (by up to `s − 1`) when it
does not — in ascending order with step `s`; iterating a `Vector` fails
with an `AttributeError` (the step computation reads `.step` off the
vector) instead of visiting its elements. -/
theorem c4_for_range_semantics (a b s : Int) (hs : 0 < s) (l : List Int)
    (hl : for_values (.rng a b s) = .ok l) :
    (∀ x ∈ l, a ≤ x ∧ x < b + s ∧ s ∣ (x - a))
    ∧ (a ≤ b → s ∣ (b - a) → b ∈ l)
    ∧ List.Chain' (fun x y => y = x + s) l
    ∧ (∀ lv, for_values (.vec lv) = .error .attributeError) := by
  have hs0 : ¬ s = 0 := by omega
  have hl2 : l = pyRange a (b + s) s := by
    simp only [for_values, if_neg hs0] at hl
    exact (Except.ok.inj hl).symm
  have hpy : pyRange a (b + s) s =
      pyRangeAux (b + s) s (b + s - a).toNat a := by
    simp [pyRange, if_pos hs]
  refine ⟨?_, ?_, ?_, fun lv => rfl⟩
  · intro x hx
    rw [hl2, hpy] at hx
    exact mem_pyRangeAux hs _ a x hx
  · intro hab hdvd
    rw [hl2, hpy]
    exact mem_pyRangeAux_of hs _ a b hab (by omega) hdvd (by omega)
  · rw [hl2, hpy]
    exact chain_pyRangeAux (b + s) s _ a

/-- Witness for C4: `Range(0, 4, 2)` includes its end `4` (the step
divides evenly). -/
theorem c4_witness :
    (4 : Int) ∈ ([0, 2, 4] : List Int)
    ∧ for_values (.rng 0 4 2) = .ok [0, 2, 4] :=
  ⟨(c4_for_range_semantics 0 4 2 (by decide) [0, 2, 4] (by decide)).2.1
      (by decide) (by decide),
    by decide⟩

end ForLoop

namespace Collect

/-- Reading a key that was not just assigned. -/
theorem pmGet_pmSet_ne {V : Type} (p : PMap V) (k k2 : String)
    (v : Option V) (h : k2 ≠ k) : pmGet (pmSet p k v) k2 = pmGet p k2 := by
  simp [pmGet, pmSet, List.lookup, beq_eq_false_iff_ne.2 h]

/-- Reading the key that was just assigned. -/
theorem pmGet_pmSet_self {V : Type} (p : PMap V) (k : String)
    (v : Option V) : pmGet (pmSet p k v) k = some v := by
  simp [pmGet, pmSet, List.lookup]

/-- The surplus warning of the positional loop fires exactly when there
are more positional arguments than parameter slots left. -/
theorem posLoop_flag {V : Type} (vl : List String) :
    ∀ (a : List V) (off : Nat) (p : PMap V),
      (posLoop vl a off p).2 = decide (vl.length - off < a.length) := by
  intro a
  induction a with
  | nil => intro off p; simp [posLoop]
  | cons v rest ih =>
    intro off p
    cases hv : vl[off]? with
    | some name =>
      have hoff : off < vl.length := by
        by_contra hc
        rw [List.getElem?_eq_none (by omega)] at hv
        exact Option.noConfusion hv
      simp only [posLoop, hv, ih]
      have : (vl.length - (off + 1) < rest.length)
          = (vl.length - off < rest.length + 1) := by
        apply propext
        omega
      simp [this]
    | none =>
      have hoff : vl.length ≤ off := by
        by_contra hc
        rw [List.getElem?_eq_getElem (by omega)] at hv
        exact Option.noConfusion hv
      simp only [posLoop, hv]
      have : vl.length - off = 0 := by omega
      simp [this]

/-- Surplus positional arguments beyond the parameter slots are dropped:
the bindings only depend on the first `vl.length - off` arguments. -/
theorem posLoop_truncate {V : Type} (vl : List String) :
    ∀ (a : List V) (off : Nat) (p : PMap V),
      (posLoop vl a off p).1 =
        (posLoop vl (a.take (vl.length - off)) off p).1 := by
  intro a
  induction a with
  | nil => intro off p; simp [posLoop]
  | cons v rest ih =>
    intro off p
    cases hv : vl[off]? with
    | some name =>
      have hoff : off < vl.length := by
        by_contra hc
        rw [List.getElem?_eq_none (by omega)] at hv
        exact Option.noConfusion hv
      have hk : vl.length - off = (vl.length - (off + 1)) + 1 := by omega
      rw [hk, List.take_succ_cons]
      simp only [posLoop, hv]
      exact ih (off + 1) _
    | none =>
      have hoff : vl.length ≤ off := by
        by_contra hc
        rw [List.getElem?_eq_getElem (by omega)] at hv
        exact Option.noConfusion hv
      have hk : vl.length - off = 0 := by omega
      rw [hk]
      simp [posLoop, hv]

/-- The fill loop never unbinds: an existing binding survives. -/
theorem fillLoop_preserves {V : Type} (dollar : String → Option V) :
    ∀ (todo : List String) (p : PMap V) (k : String) (x : Option V),
      pmGet p k = some x → pmGet (fillLoop dollar todo p).1 k = some x := by
  intro todo
  induction todo with
  | nil => intro p k x h; exact h
  | cons v rest ih =>
    intro p k x h
    have hvk : pmGet p v = none → v ≠ k := by
      intro hv he
      rw [he, h] at hv
      exact Option.noConfusion hv
    simp only [fillLoop]
    cases hv : pmGet p v with
    | some _ => exact ih p k x h
    | none =>
      have hne : v ≠ k := hvk hv
      by_cases hd : isDollar v
      · rw [if_pos hd]
        cases hdv : dollar v with
        | some dv =>
          exact ih _ k x (by rw [pmGet_pmSet_ne p v k _ (Ne.symm hne)]; exact h)
        | none =>
          exact ih _ k x (by rw [pmGet_pmSet_ne p v k _ (Ne.symm hne)]; exact h)
      · rw [if_neg hd]
        exact ih _ k x (by rw [pmGet_pmSet_ne p v k _ (Ne.symm hne)]; exact h)

/-- After the fill loop every name on its worklist is bound. -/
theorem fillLoop_covers {V : Type} (dollar : String → Option V) :
    ∀ (todo : List String) (p : PMap V) (v : String), v ∈ todo →
      (pmGet (fillLoop dollar todo p).1 v).isSome = true := by
  intro todo
  induction todo with
  | nil => intro p v hv; simp at hv
  | cons h rest ih =>
    intro p v hv
    simp only [fillLoop]
    rcases List.mem_cons.1 hv with he | hm
    · subst he
      cases hp : pmGet p v with
      | some x =>
        rw [fillLoop_preserves dollar rest p v x hp]
        rfl
      | none =>
        by_cases hd : isDollar v
        · rw [if_pos hd]
          cases hdv : dollar v with
          | some dv =>
            rw [fillLoop_preserves dollar rest _ v _ (pmGet_pmSet_self p v _)]
            rfl
          | none =>
            simp only
            rw [fillLoop_preserves dollar rest _ v _ (pmGet_pmSet_self p v _)]
            rfl
        · rw [if_neg hd]
          simp only
          rw [fillLoop_preserves dollar rest _ v _ (pmGet_pmSet_self p v _)]
          rfl
    · cases hp : pmGet p h with
      | some x => exact ih p v hm
      | none =>
        by_cases hd : isDollar h
        · rw [if_pos hd]
          cases hdv : dollar h with
          | some dv => exact ih _ v hm
          | none => simp only; exact ih _ v hm
        · rw [if_neg hd]
          simp only
          exact ih _ v hm

/-- A worklist name that is unbound and has no `$`-chain value is warned
about and bound to `None` (`Undef`). -/
theorem fillLoop_unbound {V : Type} (dollar : String → Option V) :
    ∀ (todo : List String) (p : PMap V) (v : String), v ∈ todo →
      pmGet p v = none → (isDollar v = true → dollar v = none) →
      v ∈ (fillLoop dollar todo p).2
      ∧ pmGet (fillLoop dollar todo p).1 v = some none := by
  intro todo
  induction todo with
  | nil => intro p v hv; simp at hv
  | cons h rest ih =>
    intro p v hv hnone hdnone
    simp only [fillLoop]
    by_cases hvh : v = h
    · subst hvh
      rw [hnone]
      by_cases hd : isDollar v
      · rw [if_pos hd, hdnone hd]
        simp only
        refine ⟨List.mem_cons_self _ _, ?_⟩
        exact fillLoop_preserves dollar rest _ v none (pmGet_pmSet_self p v none)
      · rw [if_neg hd]
        simp only
        refine ⟨List.mem_cons_self _ _, ?_⟩
        exact fillLoop_preserves dollar rest _ v none (pmGet_pmSet_self p v none)
    · have hm : v ∈ rest := by
        rcases List.mem_cons.1 hv with he | hm
        · exact absurd he hvh
        · exact hm
      cases hp : pmGet p h with
      | some x => exact ih p v hm hnone hdnone
      | none =>
        have hget : ∀ y : Option V, pmGet (pmSet p h y) v = none := by
          intro y
          rw [pmGet_pmSet_ne p h v y hvh]
          exact hnone
        by_cases hd : isDollar h
        · rw [if_pos hd]
          cases hdv : dollar h with
          | some dv => exact ih _ v hm (hget _) hdnone
          | none =>
            simp only
            obtain ⟨hw, hb⟩ := ih _ v hm (hget _) hdnone
            exact ⟨List.mem_cons_of_mem h hw, hb⟩
        · rw [if_neg hd]
          simp only
          obtain ⟨hw, hb⟩ := ih _ v hm (hget _) hdnone
          exact ⟨List.mem_cons_of_mem h hw, hb⟩

/-- C7: argument binding never aborts the call.  The surplus-positional
warning fires exactly when there are more positional arguments than
parameter slots, and the surplus arguments are dropped (they change
neither the bindings nor the warnings); every declared parameter ends up
bound; and every parameter still unbound after defaults, keywords,
positionals and the `$`-chain fallback is warned about and bound to
`Undef` (`None`). -/
theorem c7_collect_total {V : Type} (positional : List String)
    (defaults : List (String × V)) (a : List V) (kw : List (String × V))
    (dollar : String → Option V) :
    ((collect positional defaults a kw dollar).2.1 =
        decide ((vlOf positional defaults).length < a.length))
    ∧ ((collect positional defaults a kw dollar).1 =
          (collect positional defaults
            (a.take (vlOf positional defaults).length) kw dollar).1
        ∧ (collect positional defaults a kw dollar).2.2 =
          (collect positional defaults
            (a.take (vlOf positional defaults).length) kw dollar).2.2)
    ∧ (∀ v ∈ vlOf positional defaults,
        (pmGet (collect positional defaults a kw dollar).1 v).isSome = true)
    ∧ (∀ v ∈ vlOf positional defaults,
        pmGet (posLoop (vlOf positional defaults) a 0
          (initMap defaults kw)).1 v = none →
        (isDollar v = true → dollar v = none) →
        v ∈ (collect positional defaults a kw dollar).2.2
        ∧ pmGet (collect positional defaults a kw dollar).1 v = some none) := by
  have htr : (posLoop (vlOf positional defaults) a 0
        (initMap defaults kw)).1 =
      (posLoop (vlOf positional defaults)
        (a.take (vlOf positional defaults).length) 0
        (initMap defaults kw)).1 := by
    have := posLoop_truncate (vlOf positional defaults) a 0
      (initMap defaults kw)
    simpa using this
  refine ⟨?_, ⟨?_, ?_⟩, ?_, ?_⟩
  · have := posLoop_flag (vlOf positional defaults) a 0 (initMap defaults kw)
    simpa [collect] using this
  · simp only [collect]
    rw [htr]
  · simp only [collect]
    rw [htr]
  · intro v hv
    simp only [collect]
    exact fillLoop_covers dollar _ _ v hv
  · intro v hv hnone hdnone
    simp only [collect]
    exact fillLoop_unbound dollar _ _ v hv hnone hdnone

/-- Witness for C7: with parameters `(x, y, $fn=7)` and the single
positional argument `1`, the parameter `y` is warned about and bound to
`Undef`; with four positional arguments the surplus warning fires. -/
theorem c7_witness :
    "y" ∈ (collect ["x", "y"] [("$fn", (7 : Int))] [1] [] noDollar).2.2
    ∧ pmGet (collect ["x", "y"] [("$fn", (7 : Int))] [1] [] noDollar).1 "y" =
        some none
    ∧ (collect ["x", "y"] [("$fn", (7 : Int))] [1, 2, 3, 4] [] noDollar).2.1 =
        true :=
  ⟨((c7_collect_total ["x", "y"] [("$fn", (7 : Int))] [1] [] noDollar).2.2.2
      "y" (by decide) (by decide) (fun _ => rfl)).1,
    ((c7_collect_total ["x", "y"] [("$fn", (7 : Int))] [1] [] noDollar).2.2.2
      "y" (by decide) (by decide) (fun _ => rfl)).2,
    ((c7_collect_total ["x", "y"] [("$fn", (7 : Int))] [1, 2, 3, 4] []
      noDollar).1).trans (by decide)⟩

end Collect

namespace Mult

/-- A one-operator `multiplication` chain is just the operator applied
once. -/
theorem e_mult_single (x : NVal) (op : MulOp) (v : NVal) :
    e_multiplication x [(op, v)] =
      match op with
      | .mulOp => .ok (pyMul x v)
      | .divOp => pyDiv x v
      | .modOp => pyMod x v := by
  cases op with
  | mulOp => rfl
  | divOp =>
    have hu : e_multiplication x [(MulOp.divOp, v)] =
        pyDiv x v >>= fun b => pure b := rfl
    rw [hu]
    cases pyDiv x v <;> rfl
  | modOp =>
    have hu : e_multiplication x [(MulOp.modOp, v)] =
        pyMod x v >>= fun b => pure b := rfl
    rw [hu]
    cases pyMod x v <;> rfl

/-- C8 counterexample: evaluating `1 / 0` (and `1 % 0`) in a
`multiplication` node fails with `ZeroDivisionError` instead of
returning an IEEE-754 Inf/NaN value. -/
theorem c8_counterexample :
    e_multiplication (.int 1) [(.divOp, .int 0)] = .error .zeroDivisionError
    ∧ e_multiplication (.int 1) [(.modOp, .int 0)] =
        .error .zeroDivisionError := by
  refine ⟨?_, ?_⟩
  · rw [e_mult_single]
    simp [pyDiv, toQ]
  · rw [e_mult_single]
    simp [pyMod, toQ]

/-- C8 (amended): division (or modulo) by zero in the `/` and `%`
operators follows Python semantics, not IEEE-754 — for every numeric
`x`, evaluating `x / 0` or `x % 0` (integer or float zero) in a
`multiplication` node raises `ZeroDivisionError` rather than producing a
value. -/
theorem c8_division_by_zero_raises (x : NVal) :
    e_multiplication x [(.divOp, .int 0)] = .error .zeroDivisionError
    ∧ e_multiplication x [(.modOp, .int 0)] = .error .zeroDivisionError
    ∧ e_multiplication x [(.divOp, .float 0)] = .error .zeroDivisionError
    ∧ e_multiplication x [(.modOp, .float 0)] = .error .zeroDivisionError := by
  refine ⟨?_, ?_, ?_, ?_⟩ <;> rw [e_mult_single] <;>
    simp [pyDiv, pyMod, toQ]

end Mult

namespace Lower

/-- C9: demonstration of the modifier-prefix lowering.  A `*`-prefixed
module instantiation lowers to nothing; on the `child_statement` path it
is silently dropped, but `_e_stmt_obj` — the path taken by a top-level
statement (or one inside a plain brace block) — raises
`RuntimeError("Empty statement")` instead of dropping it.  The `#`, `%`
and `!` prefixes emit one warning each and keep the lowered statement
unchanged. -/
theorem c9_star_modifier_lowering :
    e_stmt_obj (.star (.call "cube")) = .error .emptyStatement
    ∧ (∀ work, e_child_statement (.star (.call "cube")) work = (work, []))
    ∧ (∀ name, e_stmt_obj (.hash (.call name)) = .ok (name, [.highlighting]))
    ∧ (∀ name, e_stmt_obj (.perc (.call name)) = .ok (name, [.transparency]))
    ∧ (∀ name, e_stmt_obj (.bang (.call name)) = .ok (name, [.isolation]))
    ∧ (∀ m, (eval_mod_inst (.star m)).1 = none)
    ∧ (∀ m, (eval_mod_inst (.hash m)).1 = (eval_mod_inst m).1)
    ∧ (∀ m, (eval_mod_inst (.perc m)).1 = (eval_mod_inst m).1)
    ∧ (∀ m, (eval_mod_inst (.bang m)).1 = (eval_mod_inst m).1) :=
  ⟨rfl, fun _ => rfl, fun _ => rfl, fun _ => rfl, fun _ => rfl,
    fun _ => rfl, fun _ => rfl, fun _ => rfl, fun _ => rfl⟩

end Lower

namespace Cyl

/-- C10: whenever `d2` is supplied, the top radius is computed from
`d1` (`r2 = d1 / 2`), never from `d2`; in particular every call that
supplies `d2` without `d1` — `cylinder(h=1, d2=4)` included — raises a
`TypeError` (`None / 2`) instead of building a cone with top radius
`d2 / 2`. -/
theorem c10_cylinder_d2_uses_d1 (h u w : Rat) (r1 r2 r d : Option Rat)
    (center : Bool) :
    cyl_radii r1 r2 r d (some u) (some w) = .ok (u / 2, u / 2)
    ∧ cyl_radii r1 r2 r d none (some w) = .error .typeError
    ∧ cylinder h r1 r2 r d none (some w) center = .error .typeError :=
  ⟨rfl, rfl, rfl⟩

end Cyl

end BuildScad
